import Mathlib

/-!
Verification of the retrieval-augmented answer pipeline with page-accurate
citation attribution (document chunker, citation scorer, answer orchestrator).

Modelling conventions.
Python strings are modelled as lists of Unicode characters (`List Char`),
so that every operation is structural and executable; `len`, slicing and
joining coincide with their Python counterparts on code points.
Python float arithmetic on the hand-tuned score constants (0.5, 0.3, 0.2,
thresholds 0.3, 0.5, 0.15) is modelled by exact rational arithmetic; for the
magnitudes that occur (character offsets and list lengths far below 2^50)
every comparison performed by the code agrees with the exact rational
comparison. `round(x, n)` is modelled as half-up rounding to n decimal
digits; Python rounds a binary double half-to-even, which coincides except
when the scaled value is an exact half, a set of measure zero never hit by
the score formulas on the inputs considered here.
-/

namespace RagPipeline

/-- Characters treated as whitespace by Python str.split with no argument. -/
def isPySpace (c : Char) : Bool :=
  c == ' ' || c == '\t' || c == '\n' || c == '\r' || c == '\x0b' || c == '\x0c'

/-- Word characters of the regex class backslash-w (ASCII letters, digits, underscore). -/
def isWordChar (c : Char) : Bool :=
  decide (65 ≤ c.toNat ∧ c.toNat ≤ 90) || decide (97 ≤ c.toNat ∧ c.toNat ≤ 122) ||
    decide (48 ≤ c.toNat ∧ c.toNat ≤ 57) || decide (c.toNat = 95)

/-- Accumulator-passing scanner splitting a character list into the maximal
runs of characters satisfying p, separators dropped. -/
def runsAux (p : Char → Bool) : List Char → List Char → List (List Char)
  | [], acc => if acc.isEmpty then [] else [acc.reverse]
  | c :: cs, acc =>
    if p c then runsAux p cs (c :: acc)
    else if acc.isEmpty then runsAux p cs [] else acc.reverse :: runsAux p cs []

/-- Maximal runs of characters satisfying p. With p the word-character class
this models re.findall of one-or-more word characters; with p the negation of
whitespace it models Python str.split with no argument. -/
def runs (p : Char → Bool) (l : List Char) : List (List Char) :=
  runsAux p l []

/-- Python str.split with no argument: maximal nonempty whitespace-free runs. -/
def pyWords (text : List Char) : List (List Char) :=
  runs (fun c => !(isPySpace c)) text

/-- ASCII lower-casing of one character, as Python str.lower acts on the
ASCII code points that occur in the keyword and stop-word tables. -/
def lowerChar : Char → Char
  | 'A' => 'a' | 'B' => 'b' | 'C' => 'c' | 'D' => 'd' | 'E' => 'e' | 'F' => 'f'
  | 'G' => 'g' | 'H' => 'h' | 'I' => 'i' | 'J' => 'j' | 'K' => 'k' | 'L' => 'l'
  | 'M' => 'm' | 'N' => 'n' | 'O' => 'o' | 'P' => 'p' | 'Q' => 'q' | 'R' => 'r'
  | 'S' => 's' | 'T' => 't' | 'U' => 'u' | 'V' => 'v' | 'W' => 'w' | 'X' => 'x'
  | 'Y' => 'y' | 'Z' => 'z'
  | c => c

/-- Python str.lower on a modelled string. -/
def toLowerStr (s : List Char) : List Char :=
  s.map lowerChar

/-- CitationEngine.stop_words, written exactly as the source set literal. -/
def stop_words : List (List Char) :=
  ["the", "a", "an", "and", "or", "but", "in", "on", "at", "to", "for",
   "of", "with", "by", "from", "as", "is", "was", "are", "been", "be",
   "this", "that", "these", "those", "it", "its", "which", "who", "what",
   "have", "has", "had", "will", "would", "can", "could", "may", "might",
   "should", "shall", "must", "do", "does", "did", "not", "no", "nor",
   "am", "were", "been", "being", "you", "your", "we", "our", "they", "their"].map String.data

/-- The set of meaningful lower-cased words of a text: word-character runs
longer than 3 characters whose lower-casing is not a stop word. Models the
set comprehension shared by _calculate_word_overlap (regex one-or-more word
characters plus a length guard) and _extract_relevant_snippet (regex
four-or-more word characters plus the stop-word guard), which coincide. -/
def meaningfulWords (s : List Char) : List (List Char) :=
  (((runs isWordChar s).filter
      (fun w => decide (3 < w.length) && !(stop_words.contains (toLowerStr w)))).map
    toLowerStr).dedup

/-- CitationEngine._calculate_word_overlap. -/
def calculate_word_overlap (source_text answer_text : List Char) : ℚ :=
  let source_words := meaningfulWords source_text
  let answer_words := meaningfulWords answer_text
  if answer_words.isEmpty then 0
  else
    let intersection := (answer_words.filter (fun w => source_words.contains w)).length
    min 1 ((intersection : ℚ) / (answer_words.length : ℚ))

/-- Sentence-delimiter class of the regex used by _extract_relevant_snippet. -/
def isSentenceBreak (c : Char) : Bool :=
  c == '.' || c == '!' || c == '?'

/-- Python str.strip with no argument. -/
def trimChars (l : List Char) : List Char :=
  ((l.dropWhile isPySpace).reverse.dropWhile isPySpace).reverse

/-- The lower-cased set of four-or-more character word runs of a sentence,
as computed inside the best-sentence loop of _extract_relevant_snippet. -/
def sentenceWords (s : List Char) : List (List Char) :=
  (((runs isWordChar s).filter (fun w => decide (3 < w.length))).map toLowerStr).dedup

/-- The best-matching-sentence loop of _extract_relevant_snippet: keeps the
first sentence whose overlap with the answer words is maximal, updating only
on strict improvement. -/
def bestSentence (answer_words : List (List Char)) :
    List (List Char) → List Char → ℕ → List Char
  | [], best, _ => best
  | s :: rest, best, best_score =>
    let overlap := (answer_words.filter (fun w => (sentenceWords s).contains w)).length
    if best_score < overlap then bestSentence answer_words rest s overlap
    else bestSentence answer_words rest best best_score

/-- CitationEngine._extract_relevant_snippet with the default context window
of 200 characters. -/
def extract_relevant_snippet (source_text answer_text : List Char) : List Char :=
  let sentences :=
    ((runs (fun c => !(isSentenceBreak c)) source_text).map trimChars).filter
      (fun s => decide (20 < s.length))
  match sentences with
  | [] => source_text.take 200 ++ ("...").data
  | s0 :: _ =>
    let answer_words := meaningfulWords answer_text
    let best := bestSentence answer_words sentences s0 0
    if 200 < best.length then best.take 200 ++ ("...").data else best.take 200

/-- A retrieved chunk as consumed by the citation engine and the question
classifier: the fields read with a raw indexing operation are mandatory, the
two fields read with dict.get carrying a default are optional. -/
structure RetrievedHit where
  text : List Char
  doc_id : List Char
  chunk_id : ℕ
  confidence : Option ℚ
  page_number : Option ℤ

/-- A citation record as built by CitationEngine.create_citations. -/
structure Citation where
  citation_id : ℕ
  text : List Char
  full_text : List Char
  doc_id : List Char
  chunk_id : ℕ
  page_number : ℤ
  confidence : ℚ
  relevance_score : ℚ
  word_overlap : ℚ

/-- Python round(q, ndigits), modelled as exact half-up rounding. -/
def pyRound (ndigits : ℕ) (q : ℚ) : ℚ :=
  (⌊q * 10 ^ ndigits + 1 / 2⌋ : ℚ) / 10 ^ ndigits

/-- The citation built for the chunk at 0-based enumeration index idx inside
a retrieved list of length n, following the loop body of create_citations. -/
def mkCitation (n : ℕ) (answer_text : List Char) (idx : ℕ) (chunk : RetrievedHit) : Citation :=
  let word_overlap := calculate_word_overlap chunk.text answer_text
  let semantic_score := chunk.confidence.getD (5 / 10)
  let position_bonus := ((n : ℚ) - (idx : ℚ)) / (n : ℚ) * (2 / 10)
  let relevance_score := word_overlap * (5 / 10) + semantic_score * (3 / 10) + position_bonus
  { citation_id := idx + 1
    text := extract_relevant_snippet chunk.text answer_text
    full_text := chunk.text.take 500
    doc_id := chunk.doc_id
    chunk_id := chunk.chunk_id
    page_number := chunk.page_number.getD 1
    confidence := semantic_score
    relevance_score := pyRound 3 relevance_score
    word_overlap := pyRound 3 word_overlap }

/-- The enumerate loop of create_citations. -/
def scoreLoop (n : ℕ) (answer_text : List Char) : ℕ → List RetrievedHit → List Citation
  | _, [] => []
  | idx, chunk :: rest =>
    mkCitation n answer_text idx chunk :: scoreLoop n answer_text (idx + 1) rest

/-- The total preorder realised by the Python sort key
(-relevance_score, -confidence). -/
def citOrder (a b : Citation) : Prop :=
  b.relevance_score < a.relevance_score ∨
    (a.relevance_score = b.relevance_score ∧ b.confidence ≤ a.confidence)

instance : DecidableRel citOrder := fun a b => by
  unfold citOrder; exact inferInstance

instance : IsTotal Citation citOrder where
  total a b := by
    unfold citOrder
    rcases lt_trichotomy a.relevance_score b.relevance_score with h | h | h
    · exact Or.inr (Or.inl h)
    · rcases le_total b.confidence a.confidence with hc | hc
      · exact Or.inl (Or.inr ⟨h, hc⟩)
      · exact Or.inr (Or.inr ⟨h.symm, hc⟩)
    · exact Or.inl (Or.inl h)

instance : IsTrans Citation citOrder where
  trans a b c hab hbc := by
    unfold citOrder at *
    rcases hab with h1 | ⟨h1, h1c⟩ <;> rcases hbc with h2 | ⟨h2, h2c⟩
    · exact Or.inl (h2.trans h1)
    · exact Or.inl (h2 ▸ h1)
    · exact Or.inl (h1 ▸ h2)
    · exact Or.inr ⟨h1.trans h2, h2c.trans h1c⟩

/-- CitationEngine.create_citations: score every retrieved chunk, sort with
a stable sort by descending relevance then descending confidence (the Python
list.sort with key (-relevance_score, -confidence)), keep the first 5. -/
def create_citations (chunks : List RetrievedHit) (answer_text : List Char) : List Citation :=
  ((scoreLoop chunks.length answer_text 0 chunks).insertionSort citOrder).take 5

/-- The aggregate report returned by verify_citation_accuracy. -/
structure CitationReport where
  total_citations : ℕ
  relevant_citations : ℕ
  average_confidence : ℚ
  average_relevance : ℚ
  pages_cited : List ℤ
  citation_quality : List Char

/-- CitationEngine.verify_citation_accuracy. -/
def verify_citation_accuracy (_answer : List Char) (citations : List Citation) : CitationReport :=
  if citations.isEmpty then
    { total_citations := 0
      relevant_citations := 0
      average_confidence := 0
      average_relevance := 0
      pages_cited := []
      citation_quality := ("none").data }
  else
    let total_citations := citations.length
    let relevant_citations :=
      (citations.filter (fun c => decide ((3 / 10 : ℚ) < c.relevance_score))).length
    let avg_confidence := (citations.map (fun c => c.confidence)).sum / (total_citations : ℚ)
    let avg_relevance := (citations.map (fun c => c.relevance_score)).sum / (total_citations : ℚ)
    let quality :=
      if (5 / 10 : ℚ) < avg_relevance ∧ (5 / 10 : ℚ) < avg_confidence then ("high").data
      else if (3 / 10 : ℚ) < avg_relevance ∧ (3 / 10 : ℚ) < avg_confidence then ("medium").data
      else if (15 / 100 : ℚ) < avg_relevance ∨ (15 / 100 : ℚ) < avg_confidence then
        ("acceptable").data
      else ("low").data
    { total_citations := total_citations
      relevant_citations := relevant_citations
      average_confidence := pyRound 2 avg_confidence
      average_relevance := pyRound 2 avg_relevance
      pages_cited := ((citations.map (fun c => c.page_number)).dedup.insertionSort (· ≤ ·))
      citation_quality := quality }

/-- Python substring membership pat in s on modelled strings. -/
def containsSub (s pat : List Char) : Bool :=
  if pat.isPrefixOf s then true
  else
    match s with
    | [] => false
    | _ :: t => containsSub t pat

/-- QAEngine general_keywords, written exactly as the source list literal. -/
def general_keywords : List (List Char) :=
  ["how to", "how can", "how do", "ways to", "methods to", "techniques to",
   "improve", "optimize", "better", "efficient", "best practice", "best way",
   "explain", "what is", "what are", "define", "describe", "tell me about",
   "compare", "difference between", "vs", "versus", "contrast",
   "advantages", "disadvantages", "pros", "cons", "benefits", "drawbacks",
   "alternative", "option", "approach", "strategy", "solution"].map String.data

/-- QAEngine._is_general_knowledge_question: keyword trigger on the
lower-cased question, overridden to true when the supplied context chunks
have mean confidence (missing confidence read as 0) strictly below 0.5. -/
def is_general_knowledge_question (question : List Char)
    (context_chunks : List RetrievedHit) : Bool :=
  let question_lower := toLowerStr question
  let is_general := general_keywords.any (fun kw => containsSub question_lower kw)
  if context_chunks.isEmpty then is_general
  else
    let avg_confidence :=
      (context_chunks.map (fun c => c.confidence.getD 0)).sum / (context_chunks.length : ℚ)
    if avg_confidence < 5 / 10 then true else is_general

/-- QAEngine._generate_suggestions. -/
def generate_suggestions (question answer : List Char) (is_general : Bool) :
    List (List Char) :=
  let question_lower := toLowerStr question
  let answer_lower := toLowerStr answer
  let base : List (List Char) :=
    if is_general then
      [("What specific examples are in the document?").data,
       ("Are there related concepts covered?").data]
    else []
  let keyed : List (List Char) :=
    if containsSub question_lower ("optimize").data ||
        containsSub question_lower ("improve").data then
      [("What trade-offs should I consider?").data, ("What are practical implications?").data]
    else if containsSub question_lower ("what").data then
      [("How is this implemented?").data, ("Can you explain in more detail?").data]
    else if containsSub question_lower ("how").data then
      [("What are advantages and disadvantages?").data, ("Are there alternatives?").data]
    else if containsSub question_lower ("why").data then
      [("What are the implications?").data, ("How does this compare?").data]
    else
      [("Can you provide examples?").data, ("What are key takeaways?").data]
  let assembled := base ++ keyed ++ [("What other related topics are covered?").data]
  let final :=
    if containsSub answer_lower ("algorithm").data then
      ("What's the time complexity?").data :: assembled
    else if containsSub answer_lower ("data structure").data then
      ("What are the use cases?").data :: assembled
    else assembled
  final.take 3

/-- The answer record returned by QAEngine.generate_answer. The error branch
of the source returns a dict without the citation_report key, hence the
Option; the wall-clock processing_time field is environmental and omitted. -/
structure AnswerResult where
  answer : List Char
  citations : List Citation
  confidence_score : ℚ
  suggested_questions : List (List Char)
  citation_report : Option CitationReport
  answer_type : List Char

/-- The bounded-retry loop around the external generation call (3 attempts,
the first success wins, the third failure propagates). The external model
call is an attempt-indexed oracle gen, since its outcome is environmental
nondeterminism: the prompt passed to it is the same string on every attempt
and does not influence the modelled result fields. -/
def attemptGenerate (gen : ℕ → Except (List Char) (List Char)) :
    Except (List Char) (List Char) :=
  match gen 0 with
  | .ok t => .ok t
  | .error _ =>
    match gen 1 with
    | .ok t => .ok t
    | .error _ => gen 2

/-- QAEngine.generate_answer: classify the question, call the generation
oracle with bounded retries, then either score citations and attach the
report and suggestions, or absorb the exhausted-retries failure into a
well-formed error answer. Totality of this definition models the fact that
the source wraps the whole body in a try/except and never raises. -/
def generate_answer (gen : ℕ → Except (List Char) (List Char)) (question : List Char)
    (context_chunks : List RetrievedHit) : AnswerResult :=
  let is_general := is_general_knowledge_question question context_chunks
  match attemptGenerate gen with
  | .ok answer_text =>
    let citations := create_citations context_chunks answer_text
    let report := verify_citation_accuracy answer_text citations
    { answer := answer_text
      citations := citations
      confidence_score := report.average_confidence
      suggested_questions := generate_suggestions question answer_text is_general
      citation_report := some report
      answer_type := if is_general then ("hybrid").data else ("document_only").data }
  | .error e =>
    { answer := ("I encountered an error processing your question: ").data ++ e ++
        (". Please try rephrasing.").data
      citations := []
      confidence_score := 0
      suggested_questions :=
        [("Can you rephrase your question?").data,
         ("What specific aspect would you like to know about?").data]
      citation_report := none
      answer_type := ("error").data }

/-- DocumentProcessor.chunk_size. -/
def chunk_size : ℕ := 800

/-- DocumentProcessor.chunk_overlap. -/
def chunk_overlap : ℕ := 100

/-- One page record of the page_texts list consumed by the chunker:
1-based page number, page text, and the character span of the page inside
the flattened document buffer. -/
structure PageRecord where
  page_number : ℤ
  text : List Char
  char_start : ℕ
  char_end : ℕ

/-- One chunk produced by DocumentProcessor.chunk_text. -/
structure Chunk where
  chunk_id : ℕ
  text : List Char
  page_number : ℤ
  start_index : ℕ
  end_index : ℕ
  char_start : ℕ
  char_end : ℕ
  snippet : List Char

/-- Python single-space str.join on modelled strings. -/
def joinWords : List (List Char) → List Char
  | [] => []
  | [w] => w
  | w :: ws₂ => w ++ ' ' :: joinWords ws₂

/-- The overlap test of _find_page_for_chunk: the page span intersects the
chunk span and the overlap ratio strictly exceeds 0.3. The float comparison
overlap divided by chunk length against the literal 0.3 is modelled by the
exact cross-multiplied integer comparison, which agrees with the double
comparison for all spans below 2^50 characters. -/
def chunkQualifies (char_start char_end : ℕ) (p : PageRecord) : Bool :=
  let overlap_start := max char_start p.char_start
  let overlap_end := min char_end p.char_end
  decide (overlap_start < overlap_end) &&
    decide (3 * (char_end - char_start) < 10 * (overlap_end - overlap_start))

/-- Twice the distance between the chunk midpoint and the page midpoint.
The halving in the source divides exactly in both occurrences or cancels in
every comparison, so doubled integer distances order identically. -/
def midDist (char_start char_end : ℕ) (p : PageRecord) : ℕ :=
  ((char_start : ℤ) + (char_end : ℤ) - ((p.char_start : ℤ) + (p.char_end : ℤ))).natAbs

/-- The strict comparison d < min_distance of the fallback loop, where the
initial minimum distance infinity is modelled as none. -/
def betterThan (d : ℕ) : Option ℕ → Bool
  | none => true
  | some m => decide (d < m)

/-- The fallback loop of _find_page_for_chunk: running closest page and
minimum distance (initially page 1 and infinity, modelled as none), updated
only on strict improvement. -/
def closestLoop (char_start char_end : ℕ) :
    List PageRecord → ℤ → Option ℕ → ℤ
  | [], closest_page, _ => closest_page
  | p :: rest, closest_page, min_distance =>
    let d := midDist char_start char_end p
    if betterThan d min_distance then
      closestLoop char_start char_end rest p.page_number (some d)
    else
      closestLoop char_start char_end rest closest_page min_distance

/-- DocumentProcessor._find_page_for_chunk: first page in list order whose
overlap ratio with the chunk exceeds 0.3, else the closest-midpoint fallback. -/
def find_page_for_chunk (char_start char_end : ℕ) (page_texts : List PageRecord) : ℤ :=
  match page_texts.find? (chunkQualifies char_start char_end) with
  | some p => p.page_number
  | none => closestLoop char_start char_end page_texts 1 none

/-- The chunk built by one iteration of the chunk_text loop at word index i. -/
def mkChunk (ws : List (List Char)) (page_texts : List PageRecord) (i chunk_id : ℕ) : Chunk :=
  let chunk_words := (ws.drop i).take chunk_size
  let ctext := joinWords chunk_words
  let char_start := (joinWords (ws.take i)).length
  let char_end := char_start + ctext.length
  { chunk_id := chunk_id
    text := ctext
    page_number := find_page_for_chunk char_start char_end page_texts
    start_index := i
    end_index := i + chunk_words.length
    char_start := char_start
    char_end := char_end
    snippet := if 100 < ctext.length then ctext.take 100 else ctext }

/-- The Python loop for i in range(0, len(words), chunk_size - chunk_overlap)
of chunk_text, written with a structural fuel argument so that the
definition evaluates inside the kernel; since the step is 700 the loop runs
at most len(words) times, so any fuel of at least len(words) realises the
full loop (the chunk-count theorem below proves the iteration count). -/
def chunkLoop (ws : List (List Char)) (page_texts : List PageRecord) :
    ℕ → ℕ → ℕ → List Chunk
  | 0, _, _ => []
  | fuel + 1, i, chunk_id =>
    if i < ws.length then
      mkChunk ws page_texts i chunk_id ::
        chunkLoop ws page_texts fuel (i + (chunk_size - chunk_overlap)) (chunk_id + 1)
    else []

/-- DocumentProcessor.chunk_text. -/
def chunk_text (text : List Char) (page_texts : List PageRecord) : List Chunk :=
  chunkLoop (pyWords text) page_texts (pyWords text).length 0 0

/-- A concrete retrieved hit with low confidence, used as test input. -/
def demoHitLow : RetrievedHit :=
  ⟨("x").data, ("d").data, 0, some (1 / 10), some 1⟩

/-- A concrete retrieved hit with high confidence, used as test input. -/
def demoHitHigh : RetrievedHit :=
  ⟨("y").data, ("d").data, 1, some (9 / 10), some 2⟩

/-- A concrete retrieved hit with the optional fields absent, used as test input. -/
def demoHitBare : RetrievedHit :=
  ⟨("x").data, ("d").data, 0, none, none⟩

/-- Average confidence of a citation list, as computed inside
verify_citation_accuracy on a nonempty list. -/
def avgConfQ (citations : List Citation) : ℚ :=
  (citations.map (fun c => c.confidence)).sum / (citations.length : ℚ)

/-- Average relevance of a citation list, as computed inside
verify_citation_accuracy on a nonempty list. -/
def avgRelQ (citations : List Citation) : ℚ :=
  (citations.map (fun c => c.relevance_score)).sum / (citations.length : ℚ)

/-- Average of the per-chunk confidences (missing confidence read as 0), as
computed inside _is_general_knowledge_question on a nonempty chunk list. -/
def avgHitConfQ (context_chunks : List RetrievedHit) : ℚ :=
  (context_chunks.map (fun c => c.confidence.getD 0)).sum / (context_chunks.length : ℚ)

/-- The ordering invariant of a page_texts list, as produced by both
extraction routines of the source: page numbers strictly increase along the
list and the character spans are disjoint in list order. -/
def pageOrdered (p q : PageRecord) : Prop :=
  p.page_number < q.page_number ∧ p.char_end ≤ q.char_start

/-- A concrete citation record with confidence and relevance 0.6, used as
test input. -/
def demoCitation : Citation :=
  ⟨1, [], [], [], 0, 1, 6 / 10, 6 / 10, 0⟩

lemma runsAux_mem_ne_nil (p : Char → Bool) :
    ∀ (l acc : List Char), ∀ w ∈ runsAux p l acc, w ≠ [] := by
  intro l
  induction l with
  | nil =>
    intro acc w hw
    unfold runsAux at hw
    split at hw
    · simp at hw
    · next h =>
      simp only [List.mem_singleton] at hw
      subst hw
      simpa [List.isEmpty_iff] using h
  | cons c cs ih =>
    intro acc w hw
    unfold runsAux at hw
    split at hw
    · exact ih _ w hw
    · split at hw
      · exact ih _ w hw
      · next h =>
        rcases List.mem_cons.mp hw with h1 | h1
        · subst h1
          simpa [List.isEmpty_iff] using h
        · exact ih _ w h1

lemma pyWords_ne_nil (text : List Char) : ∀ w ∈ pyWords text, w ≠ [] :=
  runsAux_mem_ne_nil _ text []

lemma joinWords_cons_cons_length (w v : List Char) (vs : List (List Char)) :
    (joinWords (w :: v :: vs)).length = w.length + 1 + (joinWords (v :: vs)).length := by
  simp [joinWords, List.length_append]
  omega

lemma joinWords_cons_le (a : List Char) (xs : List (List Char)) :
    a.length ≤ (joinWords (a :: xs)).length := by
  cases xs with
  | nil => simp [joinWords]
  | cons v vs => rw [joinWords_cons_cons_length]; omega

lemma joinWords_length_succ :
    ∀ ws : List (List Char), ws ≠ [] →
      (joinWords ws).length + 1 = (ws.map (fun w => w.length + 1)).sum := by
  intro ws
  induction ws with
  | nil => simp
  | cons w t ih =>
    intro _
    cases t with
    | nil => simp [joinWords]
    | cons v vs =>
      have h := ih (by simp)
      rw [joinWords_cons_cons_length]
      simp only [List.map_cons, List.sum_cons] at h ⊢
      omega

lemma sum_take_le_sum (M : List ℕ) (i : ℕ) : (M.take i).sum ≤ M.sum := by
  conv_rhs => rw [← List.take_append_drop i M]
  rw [List.sum_append]
  omega

lemma joinWords_take_le (ws : List (List Char)) {i j : ℕ} (h : i ≤ j) :
    (joinWords (ws.take i)).length ≤ (joinWords (ws.take j)).length := by
  rcases eq_or_ne (ws.take i) [] with hi | hi
  · simp [hi, joinWords]
  · have hj : ws.take j ≠ [] := by
      intro hj
      rcases List.take_eq_nil_iff.mp hj with h0 | h0
      · exact hi (by simp [List.take_eq_nil_iff]; omega)
      · exact hi (by simp [h0])
    have h1 := joinWords_length_succ _ hi
    have h2 := joinWords_length_succ _ hj
    have hs : ((ws.take i).map (fun w => w.length + 1)).sum ≤
        ((ws.take j).map (fun w => w.length + 1)).sum := by
      have e1 : (ws.take i).map (fun w => w.length + 1) =
          ((ws.map (fun w => w.length + 1)).take j).take i := by
        rw [← List.map_take, ← List.map_take, List.take_take, min_eq_left h]
      rw [e1, ← List.map_take]
      exact sum_take_le_sum _ i
    omega

lemma chunkLoop_length (ws : List (List Char)) (page_texts : List PageRecord) :
    ∀ (fuel i chunk_id : ℕ), ws.length ≤ i + 700 * fuel →
      (chunkLoop ws page_texts fuel i chunk_id).length = (ws.length - i + 699) / 700 := by
  intro fuel
  induction fuel with
  | zero =>
    intro i chunk_id h
    simp only [chunkLoop, List.length_nil]
    omega
  | succ fuel ih =>
    intro i chunk_id h
    rw [chunkLoop]
    split
    · next hi =>
      have hrec := ih (i + (chunk_size - chunk_overlap)) (chunk_id + 1)
        (by simp only [chunk_size, chunk_overlap]; omega)
      rw [List.length_cons, hrec]
      simp only [chunk_size, chunk_overlap]
      omega
    · next hi =>
      simp only [List.length_nil]
      omega

lemma chunkLoop_getElem? (ws : List (List Char)) (page_texts : List PageRecord) :
    ∀ (fuel i chunk_id k : ℕ), k < (chunkLoop ws page_texts fuel i chunk_id).length →
      (chunkLoop ws page_texts fuel i chunk_id)[k]? =
        some (mkChunk ws page_texts (i + 700 * k) (chunk_id + k)) := by
  intro fuel
  induction fuel with
  | zero =>
    intro i chunk_id k hk
    simp [chunkLoop] at hk
  | succ fuel ih =>
    intro i chunk_id k hk
    rw [chunkLoop] at hk ⊢
    split at hk
    · next hi =>
      rw [if_pos hi]
      cases k with
      | zero => simp
      | succ k =>
        have hk2 : k < (chunkLoop ws page_texts fuel (i + (chunk_size - chunk_overlap))
            (chunk_id + 1)).length := by
          simpa using hk
        rw [List.getElem?_cons_succ, ih _ _ k hk2]
        congr 2 <;> first
          | omega
          | (simp only [chunk_size, chunk_overlap]; omega)
    · next hi =>
      simp at hk

lemma chunkLoop_get (ws : List (List Char)) (page_texts : List PageRecord)
    (fuel i chunk_id k : ℕ) (hk : k < (chunkLoop ws page_texts fuel i chunk_id).length) :
    (chunkLoop ws page_texts fuel i chunk_id).get ⟨k, hk⟩ =
      mkChunk ws page_texts (i + 700 * k) (chunk_id + k) := by
  have h1 := chunkLoop_getElem? ws page_texts fuel i chunk_id k hk
  have h2 : (chunkLoop ws page_texts fuel i chunk_id)[k]? =
      some ((chunkLoop ws page_texts fuel i chunk_id).get ⟨k, hk⟩) := by
    simp [List.getElem?_eq_getElem hk]
  rw [h1] at h2
  exact (Option.some_inj.mp h2).symm

lemma chunkLoop_mem (ws : List (List Char)) (page_texts : List PageRecord) :
    ∀ (fuel i chunk_id : ℕ) (c : Chunk), c ∈ chunkLoop ws page_texts fuel i chunk_id →
      ∃ k, i + 700 * k < ws.length ∧ c = mkChunk ws page_texts (i + 700 * k) (chunk_id + k) := by
  intro fuel
  induction fuel with
  | zero =>
    intro i chunk_id c hc
    simp [chunkLoop] at hc
  | succ fuel ih =>
    intro i chunk_id c hc
    rw [chunkLoop] at hc
    split at hc
    · next hi =>
      rcases List.mem_cons.mp hc with h1 | h1
      · exact ⟨0, by simpa using hi, by simpa using h1⟩
      · obtain ⟨k, hk1, hk2⟩ := ih _ _ _ h1
        refine ⟨k + 1, ?_, ?_⟩
        · simp only [chunk_size, chunk_overlap] at hk1; omega
        · rw [hk2]
          congr 1 <;> first
            | omega
            | (simp only [chunk_size, chunk_overlap]; omega)
    · next hi =>
      simp at hc

lemma mkChunk_char_lt (ws : List (List Char)) (page_texts : List PageRecord)
    (i chunk_id : ℕ) (hi : i < ws.length) (hne : ∀ w ∈ ws, w ≠ []) :
    (mkChunk ws page_texts i chunk_id).char_start < (mkChunk ws page_texts i chunk_id).char_end := by
  have hdrop : ws.drop i ≠ [] := by
    rw [ne_eq, List.drop_eq_nil_iff]
    omega
  obtain ⟨a, t, ht⟩ := List.exists_cons_of_ne_nil hdrop
  have ha : a ∈ ws := List.drop_subset i ws (ht ▸ List.mem_cons_self a t)
  have hal : 0 < a.length := List.length_pos.mpr (hne a ha)
  have htake : (ws.drop i).take chunk_size = a :: t.take (chunk_size - 1) := by
    rw [ht]
    rfl
  have hjoin : a.length ≤ (joinWords ((ws.drop i).take chunk_size)).length := by
    rw [htake]
    exact joinWords_cons_le a _
  simp only [mkChunk]
  omega

/-- C2. The chunker produces exactly the ceiling of token count over the
window advance 700 = chunk_size − chunk_overlap (in natural division,
ceil(n/700) = (n+699)/700), the empty text yields no chunks, chunk_id values
are sequential from 0, and the chunk character spans move monotonically:
each chunk starts no earlier than its predecessor. -/
theorem C2_chunk_count_ids_and_monotone_spans (text : List Char) (page_texts : List PageRecord) :
    (chunk_text text page_texts).length = ((pyWords text).length + 699) / 700 ∧
    (text = [] → chunk_text text page_texts = []) ∧
    (∀ k (hk : k < (chunk_text text page_texts).length),
      ((chunk_text text page_texts).get ⟨k, hk⟩).chunk_id = k) ∧
    (∀ k (hk : k + 1 < (chunk_text text page_texts).length),
      ((chunk_text text page_texts).get ⟨k, Nat.lt_of_succ_lt hk⟩).char_start ≤
        ((chunk_text text page_texts).get ⟨k + 1, hk⟩).char_start) := by
  refine ⟨?_, ?_, ?_, ?_⟩
  · exact chunkLoop_length (pyWords text) page_texts (pyWords text).length 0 0 (by omega)
  · intro h
    subst h
    rfl
  · intro k hk
    show ((chunkLoop (pyWords text) page_texts (pyWords text).length 0 0).get ⟨k, hk⟩).chunk_id = k
    rw [chunkLoop_get (pyWords text) page_texts _ 0 0 k hk]
    simp [mkChunk]
  · intro k hk
    show ((chunkLoop (pyWords text) page_texts (pyWords text).length 0 0).get
        ⟨k, Nat.lt_of_succ_lt hk⟩).char_start ≤
      ((chunkLoop (pyWords text) page_texts (pyWords text).length 0 0).get ⟨k + 1, hk⟩).char_start
    rw [chunkLoop_get (pyWords text) page_texts _ 0 0 k (Nat.lt_of_succ_lt hk),
      chunkLoop_get (pyWords text) page_texts _ 0 0 (k + 1) hk]
    simp only [mkChunk]
    exact joinWords_take_le _ (by omega)

lemma find?_first {α : Type} (p : α → Bool) :
    ∀ (l : List α) (a : α), l.find? p = some a →
      ∃ i, ∃ hi : i < l.length, l.get ⟨i, hi⟩ = a ∧ p a = true ∧
        ∀ j (hj : j < l.length), j < i → p (l.get ⟨j, hj⟩) = false := by
  intro l
  induction l with
  | nil => intro a h; simp at h
  | cons x t ih =>
    intro a h
    by_cases hx : p x
    · rw [List.find?_cons_of_pos _ hx] at h
      obtain rfl : x = a := Option.some_inj.mp h
      exact ⟨0, by simp, rfl, hx, fun j hj hji => absurd hji (by omega)⟩
    · rw [List.find?_cons_of_neg _ (by simpa using hx)] at h
      obtain ⟨i, hi, hget, hpa, hearl⟩ := ih a h
      refine ⟨i + 1, by simpa using hi, by simpa using hget, hpa, ?_⟩
      intro j hj hji
      cases j with
      | zero => simpa using hx
      | succ j =>
        have hj2 : j < t.length := by simpa using hj
        have := hearl j hj2 (by omega)
        simpa using this

lemma closestLoop_stay (cs ce : ℕ) :
    ∀ (l : List PageRecord) (cp : ℤ) (m : ℕ),
      (∀ j (hj : j < l.length), m ≤ midDist cs ce (l.get ⟨j, hj⟩)) →
      closestLoop cs ce l cp (some m) = cp := by
  intro l
  induction l with
  | nil => intro cp m _; rfl
  | cons p rest ih =>
    intro cp m h
    have h0 : m ≤ midDist cs ce p := by simpa using h 0 (by simp)
    rw [closestLoop]
    rw [if_neg (by simp [betterThan]; omega)]
    exact ih cp m (fun j hj => by simpa using h (j + 1) (by simpa using hj))

lemma closestLoop_improve (cs ce : ℕ) :
    ∀ (l : List PageRecord) (cp : ℤ) (m : ℕ),
      (∃ j, ∃ hj : j < l.length, midDist cs ce (l.get ⟨j, hj⟩) < m) →
      ∃ i, ∃ hi : i < l.length,
        closestLoop cs ce l cp (some m) = (l.get ⟨i, hi⟩).page_number ∧
        midDist cs ce (l.get ⟨i, hi⟩) < m ∧
        (∀ j (hj : j < l.length), midDist cs ce (l.get ⟨i, hi⟩) ≤ midDist cs ce (l.get ⟨j, hj⟩)) ∧
        (∀ j (hj : j < l.length),
          midDist cs ce (l.get ⟨j, hj⟩) ≤ midDist cs ce (l.get ⟨i, hi⟩) → i ≤ j) := by
  intro l
  induction l with
  | nil =>
    intro cp m h
    obtain ⟨j, hj, _⟩ := h
    simp at hj
  | cons p rest ih =>
    intro cp m h
    by_cases hlt : midDist cs ce p < m
    · rw [closestLoop, if_pos (by simp [betterThan]; omega)]
      by_cases himp : ∃ j, ∃ hj : j < rest.length, midDist cs ce (rest.get ⟨j, hj⟩) <
          midDist cs ce p
      · obtain ⟨i, hi, hres, hd, hmin, htie⟩ := ih p.page_number (midDist cs ce p) himp
        refine ⟨i + 1, by simpa using hi, by simpa using hres, by simpa using hd.trans hlt,
          ?_, ?_⟩
        · intro j hj
          cases j with
          | zero =>
            have : midDist cs ce (rest.get ⟨i, hi⟩) ≤ midDist cs ce p := hd.le
            simpa using this
          | succ j =>
            have := hmin j (by simpa using hj)
            simpa using this
        · intro j hj hle
          cases j with
          | zero =>
            exfalso
            have hle2 : midDist cs ce p ≤ midDist cs ce (rest.get ⟨i, hi⟩) := by
              simpa using hle
            omega
          | succ j =>
            have hle2 : midDist cs ce (rest.get ⟨j, by simpa using hj⟩) ≤
                midDist cs ce (rest.get ⟨i, hi⟩) := by
              simpa using hle
            have := htie j (by simpa using hj) hle2
            omega
      · push_neg at himp
        have hstay : closestLoop cs ce rest p.page_number (some (midDist cs ce p)) =
            p.page_number :=
          closestLoop_stay cs ce rest p.page_number (midDist cs ce p)
            (fun j hj => himp j hj)
        refine ⟨0, by simp, by simpa using hstay, by simpa using hlt, ?_, ?_⟩
        · intro j hj
          cases j with
          | zero => simp
          | succ j =>
            have := himp j (by simpa using hj)
            simpa using this
        · intro j _ _
          omega
    · rw [closestLoop, if_neg (by simp [betterThan]; omega)]
      have himp : ∃ j, ∃ hj : j < rest.length, midDist cs ce (rest.get ⟨j, hj⟩) < m := by
        obtain ⟨j, hj, hdj⟩ := h
        cases j with
        | zero => exact absurd (by simpa using hdj) hlt
        | succ j => exact ⟨j, by simpa using hj, by simpa using hdj⟩
      obtain ⟨i, hi, hres, hd, hmin, htie⟩ := ih cp m himp
      refine ⟨i + 1, by simpa using hi, by simpa using hres, by simpa using hd, ?_, ?_⟩
      · intro j hj
        cases j with
        | zero =>
          have : midDist cs ce (rest.get ⟨i, hi⟩) ≤ midDist cs ce p := by omega
          simpa using this
        | succ j =>
          have := hmin j (by simpa using hj)
          simpa using this
      · intro j hj hle
        cases j with
        | zero =>
          exfalso
          have hle2 : midDist cs ce p ≤ midDist cs ce (rest.get ⟨i, hi⟩) := by
            simpa using hle
          omega
        | succ j =>
          have hle2 : midDist cs ce (rest.get ⟨j, by simpa using hj⟩) ≤
              midDist cs ce (rest.get ⟨i, hi⟩) := by
            simpa using hle
          have := htie j (by simpa using hj) hle2
          omega

lemma closestLoop_none_first (cs ce : ℕ) (l : List PageRecord) (hl : l ≠ []) (cp : ℤ) :
    ∃ i, ∃ hi : i < l.length,
      closestLoop cs ce l cp none = (l.get ⟨i, hi⟩).page_number ∧
      (∀ j (hj : j < l.length), midDist cs ce (l.get ⟨i, hi⟩) ≤ midDist cs ce (l.get ⟨j, hj⟩)) ∧
      (∀ j (hj : j < l.length),
        midDist cs ce (l.get ⟨j, hj⟩) ≤ midDist cs ce (l.get ⟨i, hi⟩) → i ≤ j) := by
  cases l with
  | nil => exact absurd rfl hl
  | cons p rest =>
    have hstep : closestLoop cs ce (p :: rest) cp none =
        closestLoop cs ce rest p.page_number (some (midDist cs ce p)) := by
      rw [closestLoop, if_pos (by simp [betterThan])]
    by_cases himp : ∃ j, ∃ hj : j < rest.length, midDist cs ce (rest.get ⟨j, hj⟩) <
        midDist cs ce p
    · obtain ⟨i, hi, hres, hd, hmin, htie⟩ :=
        closestLoop_improve cs ce rest p.page_number (midDist cs ce p) himp
      refine ⟨i + 1, by simpa using hi, by simpa using hstep.trans hres, ?_, ?_⟩
      · intro j hj
        cases j with
        | zero =>
          have : midDist cs ce (rest.get ⟨i, hi⟩) ≤ midDist cs ce p := hd.le
          simpa using this
        | succ j =>
          have := hmin j (by simpa using hj)
          simpa using this
      · intro j hj hle
        cases j with
        | zero =>
          exfalso
          have hle2 : midDist cs ce p ≤ midDist cs ce (rest.get ⟨i, hi⟩) := by
            simpa using hle
          omega
        | succ j =>
          have hle2 : midDist cs ce (rest.get ⟨j, by simpa using hj⟩) ≤
              midDist cs ce (rest.get ⟨i, hi⟩) := by
            simpa using hle
          have := htie j (by simpa using hj) hle2
          omega
    · push_neg at himp
      have hstay : closestLoop cs ce rest p.page_number (some (midDist cs ce p)) =
          p.page_number :=
        closestLoop_stay cs ce rest p.page_number (midDist cs ce p)
          (fun j hj => himp j hj)
      refine ⟨0, by simp, by simpa using hstep.trans hstay, ?_, ?_⟩
      · intro j hj
        cases j with
        | zero => simp
        | succ j =>
          have := himp j (by simpa using hj)
          simpa using this
      · intro j _ _
        omega

lemma chunk_text_fields (text : List Char) (page_texts : List PageRecord) (c : Chunk)
    (hc : c ∈ chunk_text text page_texts) :
    c.char_start < c.char_end ∧
    c.page_number = find_page_for_chunk c.char_start c.char_end page_texts := by
  obtain ⟨k, hk, hck⟩ := chunkLoop_mem (pyWords text) page_texts (pyWords text).length 0 0 c hc
  constructor
  · rw [hck]
    exact mkChunk_char_lt _ _ _ _ (by omega) (pyWords_ne_nil text)
  · rw [hck]
    simp [mkChunk]

/-- C1. Page attribution of every produced chunk, for page lists carrying
the ordering invariant of the extraction routines (strictly increasing page
numbers, spans disjoint in list order): the chunk is attributed to the first
page (equivalently, under the invariant, the least page number) whose
overlap ratio with the chunk strictly exceeds 0.3; if no page qualifies it
is attributed to the page whose midpoint is closest to the chunk midpoint,
ties broken by the lower page number; and a chunk whose span lies inside a
single page span is always attributed to that page. -/
theorem C1_page_attribution (text : List Char) (page_texts : List PageRecord)
    (hord : List.Pairwise pageOrdered page_texts)
    (c : Chunk) (hc : c ∈ chunk_text text page_texts) :
    ((∃ p ∈ page_texts, chunkQualifies c.char_start c.char_end p = true) →
      ∃ p ∈ page_texts, chunkQualifies c.char_start c.char_end p = true ∧
        c.page_number = p.page_number ∧
        ∀ q ∈ page_texts, chunkQualifies c.char_start c.char_end q = true →
          p.page_number ≤ q.page_number) ∧
    ((∀ p ∈ page_texts, ¬ chunkQualifies c.char_start c.char_end p = true) →
      page_texts ≠ [] →
      ∃ p ∈ page_texts, c.page_number = p.page_number ∧
        (∀ q ∈ page_texts,
          midDist c.char_start c.char_end p ≤ midDist c.char_start c.char_end q) ∧
        (∀ q ∈ page_texts,
          midDist c.char_start c.char_end q ≤ midDist c.char_start c.char_end p →
            p.page_number ≤ q.page_number)) ∧
    (∀ p ∈ page_texts, p.char_start ≤ c.char_start → c.char_end ≤ p.char_end →
      c.page_number = p.page_number) := by
  obtain ⟨hlt, hpage⟩ := chunk_text_fields text page_texts c hc
  refine ⟨?_, ?_, ?_⟩
  · rintro ⟨p, hp, hq⟩
    cases hfind : page_texts.find? (chunkQualifies c.char_start c.char_end) with
    | none =>
      exact absurd hq (by simpa using List.find?_eq_none.mp hfind p hp)
    | some a =>
      obtain ⟨i, hi, hgi, hpa, hearl⟩ := find?_first _ page_texts a hfind
      refine ⟨a, ?_, hpa, ?_, ?_⟩
      · rw [← hgi]; exact List.get_mem _ _ _
      · rw [hpage, find_page_for_chunk, hfind]
      · intro q hqmem hqq
        obtain ⟨⟨j, hj⟩, hgj⟩ := List.mem_iff_get.mp hqmem
        rcases Nat.lt_trichotomy j i with hji | hji | hji
        · have hf := hearl j hj hji
          rw [hgj, hqq] at hf
          exact absurd hf (by simp)
        · subst hji
          rw [← hgi, ← hgj]
        · have hpt := List.pairwise_iff_get.mp hord ⟨i, hi⟩ ⟨j, hj⟩ (by simpa using hji)
          rw [← hgi, ← hgj]
          exact le_of_lt hpt.1
  · intro hnone hne
    have hfind : page_texts.find? (chunkQualifies c.char_start c.char_end) = none :=
      List.find?_eq_none.mpr (fun x hx => by simpa using hnone x hx)
    rw [hpage, find_page_for_chunk, hfind]
    obtain ⟨i, hi, hres, hmin, htie⟩ :=
      closestLoop_none_first c.char_start c.char_end page_texts hne 1
    refine ⟨page_texts.get ⟨i, hi⟩, List.get_mem _ _ _, hres, ?_, ?_⟩
    · intro q hq
      obtain ⟨⟨j, hj⟩, hgj⟩ := List.mem_iff_get.mp hq
      rw [← hgj]
      exact hmin j hj
    · intro q hq hle
      obtain ⟨⟨j, hj⟩, hgj⟩ := List.mem_iff_get.mp hq
      have hij := htie j hj (by rw [hgj]; exact hle)
      rcases eq_or_lt_of_le hij with h | h
      · have hfin : (⟨i, hi⟩ : Fin page_texts.length) = ⟨j, hj⟩ := Fin.ext h
        rw [← hgj, ← hfin]
      · have hpt := List.pairwise_iff_get.mp hord ⟨i, hi⟩ ⟨j, hj⟩ (by simpa using h)
        rw [← hgj]
        exact le_of_lt hpt.1
  · intro p hp hs he
    obtain ⟨⟨kk, hkk⟩, hgk⟩ := List.mem_iff_get.mp hp
    have hqp : chunkQualifies c.char_start c.char_end p = true := by
      simp only [chunkQualifies, Bool.and_eq_true, decide_eq_true_eq]
      omega
    have hearlier : ∀ j (hj : j < page_texts.length), j < kk →
        chunkQualifies c.char_start c.char_end (page_texts.get ⟨j, hj⟩) = false := by
      intro j hj hjk
      have hord' := (List.pairwise_iff_get.mp hord ⟨j, hj⟩ ⟨kk, hkk⟩ (by simpa using hjk)).2
      rw [hgk] at hord'
      rw [Bool.eq_false_iff]
      intro hq
      simp only [chunkQualifies, Bool.and_eq_true, decide_eq_true_eq,
        List.get_eq_getElem] at hq
      simp only [List.get_eq_getElem] at hord'
      omega
    cases hfind : page_texts.find? (chunkQualifies c.char_start c.char_end) with
    | none =>
      exact absurd hqp (by simpa using List.find?_eq_none.mp hfind p hp)
    | some a =>
      obtain ⟨i, hi, hgi, hpa, hearl⟩ := find?_first _ page_texts a hfind
      have hik : i = kk := by
        rcases Nat.lt_trichotomy i kk with h | h | h
        · have hf := hearlier i hi h
          rw [hgi, hpa] at hf
          exact absurd hf (by simp)
        · exact h
        · have hf := hearl kk hkk h
          rw [hgk, hqp] at hf
          exact absurd hf (by simp)
      have hap : a = p := by
        rw [← hgi, ← hgk]
        exact congrArg _ (Fin.ext hik)
      rw [hpage, find_page_for_chunk, hfind, hap]

/-- Witness for C1: a two-token text fully contained in the single supplied
page span is attributed to that page. -/
theorem C1_page_attribution_witness :
    ((chunk_text ("alpha beta").data [⟨1, ("alpha beta").data, 0, 10⟩]).get
      ⟨0, by decide⟩).page_number = (1 : ℤ) :=
  (C1_page_attribution ("alpha beta").data [⟨1, ("alpha beta").data, 0, 10⟩]
    (by simp)
    ((chunk_text ("alpha beta").data [⟨1, ("alpha beta").data, 0, 10⟩]).get ⟨0, by decide⟩)
    (List.get_mem _ _ _)).2.2
    ⟨1, ("alpha beta").data, 0, 10⟩ (by simp) (by decide) (by decide)

/-- Witness for C2 at a concrete two-token text: one chunk, whose chunk_id
is 0, matching the count formula. -/
theorem C2_chunk_count_witness :
    (chunk_text ("alpha beta").data []).length = ((pyWords ("alpha beta").data).length + 699) / 700 ∧
    ((chunk_text ("alpha beta").data []).get ⟨0, by decide⟩).chunk_id = 0 :=
  ⟨(C2_chunk_count_ids_and_monotone_spans ("alpha beta").data []).1,
   (C2_chunk_count_ids_and_monotone_spans ("alpha beta").data []).2.2.1 0 (by decide)⟩

/-- C10. _calculate_word_overlap is total (a Lean function by construction)
with result in [0, 1], and an answer with no meaningful words short-circuits
to 0.0 before the division by the empty answer-word-set size. -/
theorem C10_word_overlap_total_and_bounded (source_text answer_text : List Char) :
    0 ≤ calculate_word_overlap source_text answer_text ∧
    calculate_word_overlap source_text answer_text ≤ 1 ∧
    (meaningfulWords answer_text = [] → calculate_word_overlap source_text answer_text = 0) := by
  dsimp only [calculate_word_overlap]
  by_cases h : (meaningfulWords answer_text).isEmpty
  · rw [if_pos h]
    exact ⟨le_refl 0, by norm_num, fun _ => rfl⟩
  · rw [if_neg h]
    refine ⟨?_, min_le_left 1 _, ?_⟩
    · exact le_min (by norm_num) (div_nonneg (Nat.cast_nonneg _) (Nat.cast_nonneg _))
    · intro he
      exact absurd (by simp [he]) h

/-- Witness for C10: an answer made only of short and stop words scores
exactly 0 against an arbitrary source text. -/
theorem C10_word_overlap_witness :
    calculate_word_overlap ("hello world").data ("a of the").data = 0 :=
  (C10_word_overlap_total_and_bounded ("hello world").data ("a of the").data).2.2 (by decide)

lemma scoreLoop_length (n : ℕ) (ans : List Char) :
    ∀ (l : List RetrievedHit) (idx : ℕ), (scoreLoop n ans idx l).length = l.length := by
  intro l
  induction l with
  | nil => intro idx; rfl
  | cons c rest ih => intro idx; simp [scoreLoop, ih]

lemma scoreLoop_getElem? (n : ℕ) (ans : List Char) :
    ∀ (l : List RetrievedHit) (idx k : ℕ) (hk : k < l.length),
      (scoreLoop n ans idx l)[k]? = some (mkCitation n ans (idx + k) (l.get ⟨k, hk⟩)) := by
  intro l
  induction l with
  | nil =>
    intro idx k hk
    simp at hk
  | cons c rest ih =>
    intro idx k hk
    cases k with
    | zero => simp [scoreLoop]
    | succ k =>
      have hk2 : k < rest.length := by simpa using hk
      have hstep : (scoreLoop n ans idx (c :: rest))[k + 1]? =
          (scoreLoop n ans (idx + 1) rest)[k]? := by
        rw [scoreLoop]
        simp
      rw [hstep, ih (idx + 1) k hk2]
      have h1 : idx + 1 + k = idx + (k + 1) := by omega
      rw [h1]
      simp

lemma scoreLoop_get (n : ℕ) (ans : List Char) (l : List RetrievedHit) (idx k : ℕ)
    (hk : k < l.length) (hk2 : k < (scoreLoop n ans idx l).length) :
    (scoreLoop n ans idx l).get ⟨k, hk2⟩ = mkCitation n ans (idx + k) (l.get ⟨k, hk⟩) := by
  have h1 := scoreLoop_getElem? n ans l idx k hk
  have h2 : (scoreLoop n ans idx l)[k]? = some ((scoreLoop n ans idx l).get ⟨k, hk2⟩) := by
    simp [List.getElem?_eq_getElem hk2]
  rw [h1] at h2
  exact (Option.some_inj.mp h2).symm

lemma scoreLoop_mem (n : ℕ) (ans : List Char) :
    ∀ (l : List RetrievedHit) (idx : ℕ) (c : Citation), c ∈ scoreLoop n ans idx l →
      ∃ k, ∃ hk : k < l.length, c = mkCitation n ans (idx + k) (l.get ⟨k, hk⟩) := by
  intro l
  induction l with
  | nil =>
    intro idx c hc
    simp [scoreLoop] at hc
  | cons x rest ih =>
    intro idx c hc
    rcases List.mem_cons.mp hc with h1 | h1
    · exact ⟨0, by simp, by simpa using h1⟩
    · obtain ⟨k, hk, hck⟩ := ih (idx + 1) c h1
      refine ⟨k + 1, by simpa using hk, ?_⟩
      rw [hck]
      have h1 : idx + 1 + k = idx + (k + 1) := by omega
      rw [h1]
      simp

/-- Every citation surfaced by create_citations is the scored citation of
the chunk at the pre-sort enumeration position encoded by its citation_id. -/
lemma create_citations_mem_presort (chunks : List RetrievedHit) (ans : List Char) :
    ∀ cit ∈ create_citations chunks ans,
      ∃ k, ∃ hk : k < chunks.length,
        cit = mkCitation chunks.length ans k (chunks.get ⟨k, hk⟩) ∧ cit.citation_id = k + 1 := by
  intro cit hmem
  have hmem2 : cit ∈ scoreLoop chunks.length ans 0 chunks := by
    have h1 : cit ∈ (scoreLoop chunks.length ans 0 chunks).insertionSort citOrder :=
      (List.take_sublist 5 _).subset hmem
    exact (List.perm_insertionSort citOrder _).subset h1
  obtain ⟨k, hk, hck⟩ := scoreLoop_mem chunks.length ans chunks 0 cit hmem2
  have hck2 : cit = mkCitation chunks.length ans k (chunks.get ⟨k, hk⟩) := by
    rw [hck]
    congr 1
    omega
  refine ⟨k, hk, hck2, ?_⟩
  rw [hck2]
  simp [mkCitation]

/-- C3. The relevance score stored for the chunk at 0-based enumeration
index idx in a retrieved list of size N is (after rounding to 3 decimal
digits) 0.5·word_overlap + 0.3·semantic_confidence + 0.2·((N−idx)/N), with
word_overlap the fraction of meaningful answer words present in the chunk
meaningful-word set (an empty answer word set giving fraction 0) and
semantic_confidence the chunk confidence, defaulting to 0.5 when absent. -/
theorem C3_relevance_formula (chunks : List RetrievedHit) (answer_text : List Char)
    (idx : ℕ) (h : idx < chunks.length) :
    (∀ hk : idx < (scoreLoop chunks.length answer_text 0 chunks).length,
      (scoreLoop chunks.length answer_text 0 chunks).get ⟨idx, hk⟩ =
        mkCitation chunks.length answer_text idx (chunks.get ⟨idx, h⟩)) ∧
    (mkCitation chunks.length answer_text idx (chunks.get ⟨idx, h⟩)).relevance_score =
      pyRound 3 ((5 / 10) *
          ((((meaningfulWords answer_text).filter
              (fun w => (meaningfulWords (chunks.get ⟨idx, h⟩).text).contains w)).length : ℚ) /
            ((meaningfulWords answer_text).length : ℚ)) +
        (3 / 10) * ((chunks.get ⟨idx, h⟩).confidence.getD (5 / 10)) +
        (2 / 10) * (((chunks.length : ℚ) - (idx : ℚ)) / (chunks.length : ℚ))) := by
  constructor
  · intro hk
    have := scoreLoop_get chunks.length answer_text chunks 0 idx h hk
    simpa using this
  · show pyRound 3 (calculate_word_overlap (chunks.get ⟨idx, h⟩).text answer_text * (5 / 10) +
        ((chunks.get ⟨idx, h⟩).confidence.getD (5 / 10)) * (3 / 10) +
        ((chunks.length : ℚ) - (idx : ℚ)) / (chunks.length : ℚ) * (2 / 10)) = _
    by_cases hae : (meaningfulWords answer_text).isEmpty
    · have he : meaningfulWords answer_text = [] := List.isEmpty_iff.mp hae
      have hwo : calculate_word_overlap (chunks.get ⟨idx, h⟩).text answer_text = 0 := by
        dsimp only [calculate_word_overlap]
        rw [if_pos hae]
      rw [hwo, he]
      simp only [List.filter_nil, List.length_nil, Nat.cast_zero]
      rw [div_zero]
      ring_nf
    · have hne : meaningfulWords answer_text ≠ [] := by
        simpa [List.isEmpty_iff] using hae
      have hlenpos : (0 : ℚ) < ((meaningfulWords answer_text).length : ℚ) := by
        exact_mod_cast List.length_pos.mpr hne
      have hwo : calculate_word_overlap (chunks.get ⟨idx, h⟩).text answer_text =
          (((meaningfulWords answer_text).filter
              (fun w => (meaningfulWords (chunks.get ⟨idx, h⟩).text).contains w)).length : ℚ) /
            ((meaningfulWords answer_text).length : ℚ) := by
        dsimp only [calculate_word_overlap]
        rw [if_neg hae]
        apply min_eq_right
        rw [div_le_one hlenpos]
        exact_mod_cast List.length_filter_le _ _
      rw [hwo]
      ring_nf

/-- Witness for C3: the scored list entry at index 0 of a one-chunk list is
the citation built from that chunk. -/
theorem C3_relevance_formula_witness :
    (scoreLoop 1 ("zz").data 0 [demoHitBare]).get ⟨0, by decide⟩ =
      mkCitation 1 ("zz").data 0 ([demoHitBare].get ⟨0, by decide⟩) :=
  (C3_relevance_formula [demoHitBare] ("zz").data 0 (by decide)).1 (by decide)

lemma create_citations_pairwise (chunks : List RetrievedHit) (answer_text : List Char) :
    List.Pairwise citOrder (create_citations chunks answer_text) :=
  List.Pairwise.sublist (List.take_sublist 5 _)
    (List.sorted_insertionSort citOrder (scoreLoop chunks.length answer_text 0 chunks))

/-- C4. The returned citation list has at most 5 entries and is ranked by
relevance_score descending with confidence as descending tie-break: a
citation with strictly greater relevance, or equal relevance and strictly
greater confidence, appears strictly earlier. -/
theorem C4_citations_ranked_and_truncated (chunks : List RetrievedHit) (answer_text : List Char) :
    (create_citations chunks answer_text).length ≤ 5 ∧
    ∀ i j (hi : i < (create_citations chunks answer_text).length)
        (hj : j < (create_citations chunks answer_text).length),
      (((create_citations chunks answer_text).get ⟨j, hj⟩).relevance_score <
          ((create_citations chunks answer_text).get ⟨i, hi⟩).relevance_score → i < j) ∧
      (((create_citations chunks answer_text).get ⟨i, hi⟩).relevance_score =
          ((create_citations chunks answer_text).get ⟨j, hj⟩).relevance_score →
        ((create_citations chunks answer_text).get ⟨j, hj⟩).confidence <
          ((create_citations chunks answer_text).get ⟨i, hi⟩).confidence → i < j) := by
  have hpw := create_citations_pairwise chunks answer_text
  refine ⟨List.length_take_le 5 _, ?_⟩
  intro i j hi hj
  constructor
  · intro hrel
    by_contra hij
    push_neg at hij
    rcases eq_or_lt_of_le hij with h | h
    · have : (⟨i, hi⟩ : Fin _) = ⟨j, hj⟩ := Fin.ext h.symm
      rw [this] at hrel
      exact lt_irrefl _ hrel
    · have hco := List.pairwise_iff_get.mp hpw ⟨j, hj⟩ ⟨i, hi⟩ (by simpa using h)
      rcases hco with hco | ⟨hco, _⟩
      · exact absurd hco (lt_asymm hrel)
      · rw [hco] at hrel
        exact lt_irrefl _ hrel
  · intro heq hconf
    by_contra hij
    push_neg at hij
    rcases eq_or_lt_of_le hij with h | h
    · have : (⟨i, hi⟩ : Fin _) = ⟨j, hj⟩ := Fin.ext h.symm
      rw [this] at hconf
      exact lt_irrefl _ hconf
    · have hco := List.pairwise_iff_get.mp hpw ⟨j, hj⟩ ⟨i, hi⟩ (by simpa using h)
      rcases hco with hco | ⟨_, hco⟩
      · rw [heq] at hco
        exact lt_irrefl _ hco
      · exact absurd hco (not_le_of_lt hconf)

lemma pyRound_exact (d : ℕ) (q : ℚ) (z : ℤ) (h : q * 10 ^ d = (z : ℚ)) : pyRound d q = q := by
  unfold pyRound
  rw [h, add_comm, Int.floor_add_int]
  have h0 : ⌊(1 / 2 : ℚ)⌋ = 0 := by norm_num
  rw [h0]
  have hpow : ((10 : ℚ)) ^ d ≠ 0 := by positivity
  rw [eq_comm, eq_div_iff hpow]
  push_cast
  rw [← h]
  ring

lemma word_overlap_zz_zero (src : List Char) :
    calculate_word_overlap src ("zz").data = 0 := by
  dsimp only [calculate_word_overlap]
  rw [if_pos (by decide)]

lemma relevance_demoHitLow :
    (mkCitation 2 ("zz").data 0 demoHitLow).relevance_score = 23 / 100 := by
  show pyRound 3 (calculate_word_overlap demoHitLow.text ("zz").data * (5 / 10) +
      (demoHitLow.confidence.getD (5 / 10)) * (3 / 10) +
      (((2 : ℕ) : ℚ) - ((0 : ℕ) : ℚ)) / ((2 : ℕ) : ℚ) * (2 / 10)) = 23 / 100
  rw [word_overlap_zz_zero]
  have hc : demoHitLow.confidence = some (1 / 10) := rfl
  rw [hc]
  have he : (0 : ℚ) * (5 / 10) + ((some ((1 : ℚ) / 10)).getD (5 / 10)) * (3 / 10) +
      (((2 : ℕ) : ℚ) - ((0 : ℕ) : ℚ)) / ((2 : ℕ) : ℚ) * (2 / 10) = 23 / 100 := by
    norm_num [Option.getD]
  rw [he]
  exact pyRound_exact 3 _ 230 (by norm_num)

lemma relevance_demoHitHigh :
    (mkCitation 2 ("zz").data 1 demoHitHigh).relevance_score = 37 / 100 := by
  show pyRound 3 (calculate_word_overlap demoHitHigh.text ("zz").data * (5 / 10) +
      (demoHitHigh.confidence.getD (5 / 10)) * (3 / 10) +
      (((2 : ℕ) : ℚ) - ((1 : ℕ) : ℚ)) / ((2 : ℕ) : ℚ) * (2 / 10)) = 37 / 100
  rw [word_overlap_zz_zero]
  have hc : demoHitHigh.confidence = some (9 / 10) := rfl
  rw [hc]
  have he : (0 : ℚ) * (5 / 10) + ((some ((9 : ℚ) / 10)).getD (5 / 10)) * (3 / 10) +
      (((2 : ℕ) : ℚ) - ((1 : ℕ) : ℚ)) / ((2 : ℕ) : ℚ) * (2 / 10) = 37 / 100 := by
    norm_num [Option.getD]
  rw [he]
  exact pyRound_exact 3 _ 370 (by norm_num)

/-- Concrete evaluation of create_citations on a two-chunk list where the
second chunk scores higher: the sort swaps the two citations. -/
lemma demo_create_citations_eval :
    create_citations [demoHitLow, demoHitHigh] ("zz").data =
      [mkCitation 2 ("zz").data 1 demoHitHigh, mkCitation 2 ("zz").data 0 demoHitLow] := by
  have hno : ¬ citOrder (mkCitation 2 ("zz").data 0 demoHitLow)
      (mkCitation 2 ("zz").data 1 demoHitHigh) := by
    intro hco
    unfold citOrder at hco
    rcases hco with hlt | ⟨heq, _⟩
    · rw [relevance_demoHitLow, relevance_demoHitHigh] at hlt
      norm_num at hlt
    · rw [relevance_demoHitLow, relevance_demoHitHigh] at heq
      norm_num at heq
  show ((scoreLoop 2 ("zz").data 0 [demoHitLow, demoHitHigh]).insertionSort citOrder).take 5 = _
  have hs : scoreLoop 2 ("zz").data 0 [demoHitLow, demoHitHigh] =
      [mkCitation 2 ("zz").data 0 demoHitLow, mkCitation 2 ("zz").data 1 demoHitHigh] := rfl
  rw [hs]
  show (List.orderedInsert citOrder (mkCitation 2 ("zz").data 0 demoHitLow)
      (List.orderedInsert citOrder (mkCitation 2 ("zz").data 1 demoHitHigh) [])).take 5 = _
  rw [List.orderedInsert, List.orderedInsert, if_neg hno, List.orderedInsert]
  rfl

/-- Counterexample to C5 as stated: on a two-chunk input whose second chunk
outranks the first, the returned citation_id sequence is [2, 1], so the
first returned citation does not carry citation_id 1. -/
theorem C5_counterexample :
    ((create_citations [demoHitLow, demoHitHigh] ("zz").data).map
      (fun c => c.citation_id)) = [2, 1] ∧
    ((create_citations [demoHitLow, demoHitHigh] ("zz").data).map
      (fun c => c.citation_id)) ≠ [1, 2] := by
  rw [demo_create_citations_eval]
  exact ⟨rfl, by decide⟩

/-- C5 amended: citation_id is one plus the 0-based position of the source
chunk in the input chunk list, assigned before sorting; it equals the
1-based returned rank only when the relevance sort preserves input order. -/
theorem C5_amended_presort_citation_id (chunks : List RetrievedHit) (answer_text : List Char) :
    ∀ cit ∈ create_citations chunks answer_text,
      1 ≤ cit.citation_id ∧ cit.citation_id ≤ chunks.length ∧
      ∀ hi : cit.citation_id - 1 < chunks.length,
        cit = mkCitation chunks.length answer_text (cit.citation_id - 1)
          (chunks.get ⟨cit.citation_id - 1, hi⟩) := by
  intro cit hmem
  obtain ⟨k, hk, hck, hid⟩ := create_citations_mem_presort chunks answer_text cit hmem
  refine ⟨by omega, by omega, ?_⟩
  intro hi
  have hk2 : cit.citation_id - 1 = k := by omega
  simp only [hk2]
  exact hck

/-- Witness for the amended C5 on a one-chunk input. -/
theorem C5_amended_witness :
    1 ≤ (mkCitation 1 ("zz").data 0 demoHitBare).citation_id ∧
    (mkCitation 1 ("zz").data 0 demoHitBare).citation_id ≤ 1 := by
  have hmem : mkCitation 1 ("zz").data 0 demoHitBare ∈
      create_citations [demoHitBare] ("zz").data := by
    show mkCitation 1 ("zz").data 0 demoHitBare ∈
      ((scoreLoop 1 ("zz").data 0 [demoHitBare]).insertionSort citOrder).take 5
    have hs : ((scoreLoop 1 ("zz").data 0 [demoHitBare]).insertionSort citOrder).take 5 =
        [mkCitation 1 ("zz").data 0 demoHitBare] := rfl
    rw [hs]
    exact List.mem_singleton_self _
  have h := C5_amended_presort_citation_id [demoHitBare] ("zz").data _ hmem
  exact ⟨h.1, h.2.1⟩

/-- C9. Citation scoring degrades absent optional chunk fields to safe
defaults instead of raising: every surfaced citation carries the source
chunk confidence with default 0.5 and the source chunk page number with
default 1 (so an absent confidence yields 0.5 and an absent page number
yields page 1), and the pipeline of create_citations followed by
verify_citation_accuracy always returns a report whose quality is one of
the five defined labels; both functions are total by construction. -/
theorem C9_safe_defaults (chunks : List RetrievedHit) (answer_text : List Char) :
    (∀ cit ∈ create_citations chunks answer_text,
      ∀ hi : cit.citation_id - 1 < chunks.length,
        cit.confidence = ((chunks.get ⟨cit.citation_id - 1, hi⟩).confidence.getD (5 / 10)) ∧
        cit.page_number = ((chunks.get ⟨cit.citation_id - 1, hi⟩).page_number.getD 1)) ∧
    ((verify_citation_accuracy answer_text (create_citations chunks answer_text)).citation_quality ∈
      [("none").data, ("high").data, ("medium").data, ("acceptable").data, ("low").data]) := by
  constructor
  · intro cit hmem hi
    obtain ⟨k, hk, hck, hid⟩ := create_citations_mem_presort chunks answer_text cit hmem
    have hk2 : cit.citation_id - 1 = k := by omega
    have h1 : cit.confidence = (chunks.get ⟨k, hk⟩).confidence.getD (5 / 10) := by
      rw [hck]; rfl
    have h2 : cit.page_number = (chunks.get ⟨k, hk⟩).page_number.getD 1 := by
      rw [hck]; rfl
    simp only [hk2]
    exact ⟨h1, h2⟩
  · unfold verify_citation_accuracy
    split
    · simp
    · dsimp only
      split_ifs <;> simp

/-- Witness for C9: a chunk with both optional fields absent is cited with
confidence 0.5 and page number 1. -/
theorem C9_safe_defaults_witness :
    (mkCitation 1 ("zz").data 0 demoHitBare).confidence = 5 / 10 ∧
    (mkCitation 1 ("zz").data 0 demoHitBare).page_number = 1 := by
  have hmem : mkCitation 1 ("zz").data 0 demoHitBare ∈
      create_citations [demoHitBare] ("zz").data := by
    show mkCitation 1 ("zz").data 0 demoHitBare ∈
      ((scoreLoop 1 ("zz").data 0 [demoHitBare]).insertionSort citOrder).take 5
    have hs : ((scoreLoop 1 ("zz").data 0 [demoHitBare]).insertionSort citOrder).take 5 =
        [mkCitation 1 ("zz").data 0 demoHitBare] := rfl
    rw [hs]
    exact List.mem_singleton_self _
  have h := (C9_safe_defaults [demoHitBare] ("zz").data).1 _ hmem (by decide)
  exact ⟨h.1, h.2⟩

/-- Witness for C4 on the two-chunk input: the higher-relevance citation
precedes the lower one. -/
theorem C4_citations_ranked_witness :
    ((mkCitation 2 ("zz").data 0 demoHitLow).relevance_score <
      (mkCitation 2 ("zz").data 1 demoHitHigh).relevance_score) ∧ (0 : ℕ) < 1 := by
  have hL := demo_create_citations_eval
  have h0 : 0 < (create_citations [demoHitLow, demoHitHigh] ("zz").data).length := by
    rw [hL]; decide
  have h1 : 1 < (create_citations [demoHitLow, demoHitHigh] ("zz").data).length := by
    rw [hL]; decide
  have e0 : (create_citations [demoHitLow, demoHitHigh] ("zz").data)[0]? =
      some (mkCitation 2 ("zz").data 1 demoHitHigh) := by
    rw [hL]; rfl
  have e1 : (create_citations [demoHitLow, demoHitHigh] ("zz").data)[1]? =
      some (mkCitation 2 ("zz").data 0 demoHitLow) := by
    rw [hL]; rfl
  have g0 : (create_citations [demoHitLow, demoHitHigh] ("zz").data).get ⟨0, h0⟩ =
      mkCitation 2 ("zz").data 1 demoHitHigh := by
    have := List.getElem?_eq_getElem h0
    rw [e0] at this
    exact (Option.some_inj.mp this.symm)
  have g1 : (create_citations [demoHitLow, demoHitHigh] ("zz").data).get ⟨1, h1⟩ =
      mkCitation 2 ("zz").data 0 demoHitLow := by
    have := List.getElem?_eq_getElem h1
    rw [e1] at this
    exact (Option.some_inj.mp this.symm)
  have hrel : (mkCitation 2 ("zz").data 0 demoHitLow).relevance_score <
      (mkCitation 2 ("zz").data 1 demoHitHigh).relevance_score := by
    rw [relevance_demoHitLow, relevance_demoHitHigh]
    norm_num
  refine ⟨hrel, ?_⟩
  have := ((C4_citations_ranked_and_truncated [demoHitLow, demoHitHigh] ("zz").data).2
    0 1 h0 h1).1
  apply this
  rw [g0, g1]
  exact hrel

lemma sum_ge_card_mul (l : List ℚ) (c : ℚ) (h : ∀ x ∈ l, c ≤ x) :
    c * (l.length : ℚ) ≤ l.sum := by
  induction l with
  | nil => simp
  | cons x t ih =>
    have hx := h x (List.mem_cons_self x t)
    have ht := ih (fun y hy => h y (List.mem_cons_of_mem x hy))
    simp only [List.sum_cons, List.length_cons]
    push_cast
    nlinarith [ht, hx]

lemma sum_le_card_mul (l : List ℚ) (c : ℚ) (h : ∀ x ∈ l, x ≤ c) :
    l.sum ≤ c * (l.length : ℚ) := by
  induction l with
  | nil => simp
  | cons x t ih =>
    have hx := h x (List.mem_cons_self x t)
    have ht := ih (fun y hy => h y (List.mem_cons_of_mem x hy))
    simp only [List.sum_cons, List.length_cons]
    push_cast
    nlinarith [ht, hx]

/-- The quality field of the report on a nonempty list is the if-chain over
the unrounded averages. -/
lemma verify_quality_eq (answer : List Char) (citations : List Citation)
    (hne : citations ≠ []) :
    (verify_citation_accuracy answer citations).citation_quality =
      (if 5 / 10 < avgRelQ citations ∧ 5 / 10 < avgConfQ citations then ("high").data
       else if 3 / 10 < avgRelQ citations ∧ 3 / 10 < avgConfQ citations then ("medium").data
       else if 15 / 100 < avgRelQ citations ∨ 15 / 100 < avgConfQ citations then
         ("acceptable").data
       else ("low").data) := by
  unfold verify_citation_accuracy avgRelQ avgConfQ
  rw [if_neg (by simpa [List.isEmpty_iff] using hne)]

/-- C6. The verdict of verify_citation_accuracy: the empty citation list
short-circuits to the all-zero report with quality none before any average
is formed; a nonempty list is classified high when both averages exceed
0.5, else medium when both exceed 0.3, else acceptable when either exceeds
0.15, else low; in particular a list whose confidences and relevance scores
are all at least 0.6 is classified high. -/
theorem C6_quality_verdict (answer : List Char) :
    (verify_citation_accuracy answer [] =
      { total_citations := 0, relevant_citations := 0, average_confidence := 0,
        average_relevance := 0, pages_cited := [], citation_quality := ("none").data }) ∧
    (∀ citations : List Citation, citations ≠ [] →
      ((5 / 10 < avgRelQ citations ∧ 5 / 10 < avgConfQ citations →
        (verify_citation_accuracy answer citations).citation_quality = ("high").data) ∧
       (¬ (5 / 10 < avgRelQ citations ∧ 5 / 10 < avgConfQ citations) →
        3 / 10 < avgRelQ citations ∧ 3 / 10 < avgConfQ citations →
        (verify_citation_accuracy answer citations).citation_quality = ("medium").data) ∧
       (¬ (5 / 10 < avgRelQ citations ∧ 5 / 10 < avgConfQ citations) →
        ¬ (3 / 10 < avgRelQ citations ∧ 3 / 10 < avgConfQ citations) →
        (15 / 100 < avgRelQ citations ∨ 15 / 100 < avgConfQ citations) →
        (verify_citation_accuracy answer citations).citation_quality = ("acceptable").data) ∧
       (¬ (5 / 10 < avgRelQ citations ∧ 5 / 10 < avgConfQ citations) →
        ¬ (3 / 10 < avgRelQ citations ∧ 3 / 10 < avgConfQ citations) →
        ¬ (15 / 100 < avgRelQ citations ∨ 15 / 100 < avgConfQ citations) →
        (verify_citation_accuracy answer citations).citation_quality = ("low").data))) ∧
    (∀ citations : List Citation, citations ≠ [] →
      (∀ c ∈ citations, 6 / 10 ≤ c.confidence ∧ 6 / 10 ≤ c.relevance_score) →
      (verify_citation_accuracy answer citations).citation_quality = ("high").data) := by
  refine ⟨rfl, ?_, ?_⟩
  · intro citations hne
    refine ⟨?_, ?_, ?_, ?_⟩
    · intro h
      rw [verify_quality_eq answer citations hne, if_pos h]
    · intro hn h
      rw [verify_quality_eq answer citations hne, if_neg hn, if_pos h]
    · intro hn1 hn2 h
      rw [verify_quality_eq answer citations hne, if_neg hn1, if_neg hn2, if_pos h]
    · intro hn1 hn2 hn3
      rw [verify_quality_eq answer citations hne, if_neg hn1, if_neg hn2, if_neg hn3]
  · intro citations hne hall
    have hlen : (0 : ℚ) < (citations.length : ℚ) := by
      exact_mod_cast List.length_pos.mpr hne
    have hc : 6 / 10 ≤ avgConfQ citations := by
      unfold avgConfQ
      rw [le_div_iff₀ hlen]
      have hs := sum_ge_card_mul (citations.map (fun c => c.confidence)) (6 / 10)
        (fun x hx => by
          obtain ⟨c, hcm, rfl⟩ := List.mem_map.mp hx
          exact (hall c hcm).1)
      simpa using hs
    have hr : 6 / 10 ≤ avgRelQ citations := by
      unfold avgRelQ
      rw [le_div_iff₀ hlen]
      have hs := sum_ge_card_mul (citations.map (fun c => c.relevance_score)) (6 / 10)
        (fun x hx => by
          obtain ⟨c, hcm, rfl⟩ := List.mem_map.mp hx
          exact (hall c hcm).2)
      simpa using hs
    rw [verify_quality_eq answer citations hne, if_pos ⟨by linarith, by linarith⟩]

/-- Witness for C6: a single citation with confidence and relevance 0.6 is
classified high. -/
theorem C6_quality_verdict_witness :
    (verify_citation_accuracy ("a").data [demoCitation]).citation_quality = ("high").data :=
  (C6_quality_verdict ("a").data).2.2 [demoCitation] (by simp)
    (by
      intro c hc
      rw [List.mem_singleton] at hc
      subst hc
      exact ⟨le_refl _, le_refl _⟩)

/-- C7. When the generation call fails on all 3 attempts, generate_answer
returns (never raises: it is total by construction) the well-formed error
answer: answer_type error, the failure message embedded in the answer text,
no citations, confidence 0.0, and exactly 2 generic clarifying suggestions. -/
theorem C7_error_path (gen : ℕ → Except (List Char) (List Char)) (question : List Char)
    (context_chunks : List RetrievedHit)
    (h : ∀ k, k < 3 → ∃ e, gen k = Except.error e) :
    (generate_answer gen question context_chunks).answer_type = ("error").data ∧
    (generate_answer gen question context_chunks).citations = [] ∧
    (generate_answer gen question context_chunks).confidence_score = 0 ∧
    (generate_answer gen question context_chunks).suggested_questions.length = 2 ∧
    (∀ e, gen 2 = Except.error e →
      (generate_answer gen question context_chunks).answer =
        ("I encountered an error processing your question: ").data ++ e ++
          (". Please try rephrasing.").data) := by
  obtain ⟨e0, h0⟩ := h 0 (by omega)
  obtain ⟨e1, h1⟩ := h 1 (by omega)
  obtain ⟨e2, h2⟩ := h 2 (by omega)
  have hatt : attemptGenerate gen = Except.error e2 := by
    unfold attemptGenerate
    rw [h0, h1, h2]
  unfold generate_answer
  rw [hatt]
  refine ⟨rfl, rfl, rfl, rfl, ?_⟩
  intro e he
  rw [h2] at he
  obtain rfl : e2 = e := by
    injection he
  rfl

/-- Witness for C7: a generation oracle failing on every attempt yields the
error answer with two suggestions. -/
theorem C7_error_path_witness :
    (generate_answer (fun _ => Except.error ("boom").data) ("q").data []).answer_type =
      ("error").data ∧
    (generate_answer (fun _ => Except.error ("boom").data) ("q").data
      []).suggested_questions.length = 2 := by
  have h := C7_error_path (fun _ => Except.error ("boom").data) ("q").data []
    (fun k _ => ⟨("boom").data, rfl⟩)
  exact ⟨h.1, h.2.2.2.1⟩

/-- Shape of the classifier on a nonempty chunk list. -/
lemma is_general_nonempty_eq (question : List Char) (context_chunks : List RetrievedHit)
    (hne : context_chunks ≠ []) :
    is_general_knowledge_question question context_chunks =
      (if avgHitConfQ context_chunks < 5 / 10 then true
       else general_keywords.any fun kw => containsSub (toLowerStr question) kw) := by
  unfold is_general_knowledge_question avgHitConfQ
  rw [if_neg (by simpa [List.isEmpty_iff] using hne)]

/-- C8. A question is classified hybrid exactly when its lowercased text
contains one of the general-knowledge trigger phrases, or the context chunk
list is nonempty with mean confidence (absent confidence read as 0) strictly
below 0.5; in particular nonempty context whose chunks all carry confidence
0.2 forces the hybrid classification regardless of trigger phrases. -/
theorem C8_hybrid_classification (question : List Char) (context_chunks : List RetrievedHit) :
    (is_general_knowledge_question question context_chunks = true ↔
      ((∃ kw ∈ general_keywords, containsSub (toLowerStr question) kw = true) ∨
        (context_chunks ≠ [] ∧ avgHitConfQ context_chunks < 5 / 10))) ∧
    (context_chunks ≠ [] → (∀ c ∈ context_chunks, c.confidence = some (2 / 10)) →
      is_general_knowledge_question question context_chunks = true) := by
  constructor
  · rcases eq_or_ne context_chunks [] with he | hne
    · subst he
      have hempty : is_general_knowledge_question question [] =
          (general_keywords.any fun kw => containsSub (toLowerStr question) kw) := rfl
      rw [hempty, List.any_eq_true]
      constructor
      · rintro ⟨kw, hkw, hc⟩
        exact Or.inl ⟨kw, hkw, hc⟩
      · rintro (⟨kw, hkw, hc⟩ | ⟨hcon, _⟩)
        · exact ⟨kw, hkw, hc⟩
        · exact absurd rfl hcon
    · rw [is_general_nonempty_eq question context_chunks hne]
      by_cases havg : avgHitConfQ context_chunks < 5 / 10
      · rw [if_pos havg]
        constructor
        · intro _
          exact Or.inr ⟨hne, havg⟩
        · intro _
          rfl
      · rw [if_neg havg, List.any_eq_true]
        constructor
        · rintro ⟨kw, hkw, hc⟩
          exact Or.inl ⟨kw, hkw, hc⟩
        · rintro (⟨kw, hkw, hc⟩ | ⟨_, hcon⟩)
          · exact ⟨kw, hkw, hc⟩
          · exact absurd hcon havg
  · intro hne hall
    have hlen : (0 : ℚ) < (context_chunks.length : ℚ) := by
      exact_mod_cast List.length_pos.mpr hne
    have hsum : (context_chunks.map (fun c => c.confidence.getD 0)).sum ≤
        (2 / 10) * (context_chunks.length : ℚ) := by
      have hs := sum_le_card_mul (context_chunks.map (fun c => c.confidence.getD 0)) (2 / 10)
        (fun x hx => by
          obtain ⟨c, hcm, rfl⟩ := List.mem_map.mp hx
          rw [hall c hcm]
          norm_num)
      simpa using hs
    have havg : avgHitConfQ context_chunks < 5 / 10 := by
      unfold avgHitConfQ
      rw [div_lt_iff₀ hlen]
      nlinarith [hsum, hlen]
    rw [is_general_nonempty_eq question context_chunks hne, if_pos havg]

/-- Witness for C8: the low-confidence scenario with a single chunk of
confidence 0.2 classifies as hybrid. -/
theorem C8_hybrid_classification_witness :
    is_general_knowledge_question ("What is a hash table?").data
      [⟨("t").data, ("d").data, 0, some (2 / 10), none⟩] = true :=
  (C8_hybrid_classification ("What is a hash table?").data
    [⟨("t").data, ("d").data, 0, some (2 / 10), none⟩]).2 (by simp)
    (by
      intro c hc
      rw [List.mem_singleton] at hc
      subst hc
      rfl)

end RagPipeline
